import Mathlib

/-!
Shallow embedding of the `grug_soa` columnar storage engine (src/lib.rs):
the copy-on-write `Overlay` column and the table-coordinator operations
generated by `impl_load_prototype!`.

Modelling conventions:
* Rust `Vec<T>` is `List T`; `Vec::push` is `· ++ [x]`; indexing `v[i]`
  is `List.get?` / `List.getD` with the panic case made explicit.
* Rust `HashMap<usize, T>` is an association list `List (Nat × T)` with
  the lookup / insert (replacing) / remove operations of the map.
* Rust `u64` presence words are `Nat`; `1u64 << b` (with `b < 64`) is
  `1 <<< b`; `!mask` is XOR against `2^64 - 1`, which agrees with the
  u64 bitwise complement on all values below `2^64`.
* A Rust panic (a failing `expect` or an out-of-bounds index) is modelled by
  `Except`: `.error s` carries the state of the structure at the moment
  the panic fires, so "no mutation before the fault" is provable.
-/

namespace GrugSoa

/-- Association-list model of `HashMap::get`. -/
def alookup {T : Type} : List (Nat × T) → Nat → Option T
  | [], _ => none
  | (k, v) :: rest, key => if k = key then some v else alookup rest key

/-- Association-list model of `HashMap::remove` (drops the key). -/
def aerase {T : Type} (l : List (Nat × T)) (k : Nat) : List (Nat × T) :=
  l.filter (fun p => p.1 ≠ k)

/-- Association-list model of `HashMap::insert` (replaces the key). -/
def ainsert {T : Type} (l : List (Nat × T)) (k : Nat) (v : T) : List (Nat × T) :=
  (k, v) :: aerase l k

@[simp] theorem alookup_nil {T : Type} (k : Nat) : alookup ([] : List (Nat × T)) k = none := rfl

theorem alookup_aerase {T : Type} (l : List (Nat × T)) (k j : Nat) :
    alookup (aerase l k) j = if k = j then none else alookup l j := by
  induction l with
  | nil => simp [aerase]
  | cons p rest ih =>
    obtain ⟨k', v'⟩ := p
    by_cases hk : k' = k
    · subst hk
      by_cases hj : k' = j <;> simp_all [aerase, alookup, List.filter]
    · by_cases hj : k' = j
      · subst hj
        simp only [aerase, List.filter] at ih ⊢
        simp_all [alookup, decide_eq_true_eq]
        intro h; exact absurd h.symm hk
      · simp only [aerase, List.filter] at ih ⊢
        by_cases hkj : k = j <;> simp_all [alookup, decide_eq_true_eq]

theorem alookup_ainsert_self {T : Type} (l : List (Nat × T)) (k : Nat) (v : T) :
    alookup (ainsert l k v) k = some v := by
  simp [ainsert, alookup]

theorem alookup_ainsert_ne {T : Type} (l : List (Nat × T)) (k j : Nat) (v : T) (h : k ≠ j) :
    alookup (ainsert l k v) j = alookup l j := by
  simp [ainsert, alookup, h, alookup_aerase]

theorem alookup_aerase_self {T : Type} (l : List (Nat × T)) (k : Nat) :
    alookup (aerase l k) k = none := by
  simp [alookup_aerase]

theorem alookup_aerase_ne {T : Type} (l : List (Nat × T)) (k j : Nat) (h : k ≠ j) :
    alookup (aerase l k) j = alookup l j := by
  simp [alookup_aerase, h]

/-- Reading via `List.getD` with default `0` is unchanged by padding with zero words
(`Vec::resize(_, 0)` never alters an existing or virtual word). -/
theorem getD_append_zeros (l : List Nat) (m i : Nat) :
    (l ++ List.replicate m 0).getD i 0 = l.getD i 0 := by
  rcases Nat.lt_or_ge i l.length with h | h
  · simp [List.getD, List.getElem?_append_left h]
  · rw [List.getD_eq_getElem?_getD, List.getD_eq_getElem?_getD,
      List.getElem?_eq_none h, List.getElem?_append_right h]
    rcases Nat.lt_or_ge (i - l.length) m with h2 | h2
    · simp [List.getElem?_replicate, h2]
    · have : (List.replicate m (0 : Nat)).length ≤ i - l.length := by simpa using h2
      simp [List.getElem?_eq_none this]

theorem getD_set_self (l : List Nat) (w x : Nat) (h : w < l.length) :
    (l.set w x).getD w 0 = x := by
  simp [List.getD, List.getElem?_set_self', List.getElem?_eq_getElem h]

theorem getD_set_ne (l : List Nat) (w u x : Nat) (h : w ≠ u) :
    (l.set w x).getD u 0 = l.getD u 0 := by
  simp [List.getD, List.getElem?_set_ne h]

/-- Rust `u64::MAX`, used to model the Rust bitwise complement `!mask`. -/
def u64max : Nat := 2 ^ 64 - 1

/-- u64 bitwise complement: for `m < 2^64`, `!m = (2^64 - 1) ^^^ m`. -/
def notU64 (m : Nat) : Nat := u64max ^^^ m

/-- Rust `struct Overlay<T>` from src/lib.rs. -/
structure Overlay (T : Type) where
  /-- Prototype/template data (indexed by `prototype_id`). -/
  dense_data : List T
  /-- Per-instance overrides (keyed by `instance_id`), a `HashMap<usize, T>`. -/
  sparse_data : List (Nat × T)
  /-- Bitmask words (`Vec<u64>`): bit `i` set means instance `i` has an override. -/
  presence : List Nat
  /-- Logical number of instances tracked by this overlay. -/
  instance_len : Nat

namespace Overlay

variable {T : Type}

/-- Rust `impl Default for Overlay<T>`. -/
def default : Overlay T :=
  { dense_data := [], sparse_data := [], presence := [], instance_len := 0 }

/-- Rust `fn word_bit(instance_id) -> (usize, u64)`: `(id >> 6, 1 << (id & 63))`. -/
def word_bit (instance_id : Nat) : Nat × Nat :=
  (instance_id >>> 6, 1 <<< (instance_id &&& 63))

/-- Rust `fn ensure_presence_capacity`: grow `presence` with zero words to cover `instance_id`. -/
def ensure_presence_capacity (o : Overlay T) (instance_id : Nat) : Overlay T :=
  let word := (word_bit instance_id).1
  if o.presence.length ≤ word then
    { o with presence := o.presence ++ List.replicate (word + 1 - o.presence.length) 0 }
  else o

/-- Rust `fn push_instance`: adds a new instance slot (no override set). -/
def push_instance (o : Overlay T) : Overlay T :=
  let id := o.instance_len
  ensure_presence_capacity { o with instance_len := o.instance_len + 1 } id

/-- Rust `fn has_override`: true if this instance has an override. -/
def has_override (o : Overlay T) (instance_id : Nat) : Bool :=
  if o.instance_len ≤ instance_id then false
  else
    let wb := word_bit instance_id
    (o.presence.getD wb.1 0 &&& wb.2) != 0

/-- Rust `fn clear_override`: clears an override for `instance_id`, if present. -/
def clear_override (o : Overlay T) (instance_id : Nat) : Overlay T :=
  if o.instance_len ≤ instance_id then o
  else
    let wb := word_bit instance_id
    { o with
      presence := o.presence.set wb.1 (o.presence.getD wb.1 0 &&& notU64 wb.2),
      sparse_data := aerase o.sparse_data instance_id }

/-- Rust `fn get`: read with fallback to prototype/template data.
`none` models a panic (failed `expect` on the consistency invariant, or an
out-of-range index into `dense_data`). -/
def get (o : Overlay T) (instance_id prototype_id : Nat) : Option T :=
  if o.has_override instance_id then alookup o.sparse_data instance_id
  else o.dense_data.get? prototype_id

/-- Rust `fn get_mut`: copy-on-write write access.  The result is the overlay state
after the call; `.error` carries the state at the moment of the panic
(bounds check, `dense_data` index, or the final `expect`). -/
def get_mut (o : Overlay T) (instance_id prototype_id : Nat) :
    Except (Overlay T) (Overlay T) :=
  if o.instance_len ≤ instance_id then .error o
  else if o.has_override instance_id then
    match alookup o.sparse_data instance_id with
    | some _ => .ok o
    | none => .error o
  else
    match o.dense_data.get? prototype_id with
    | none => .error o
    | some base =>
      let o1 : Overlay T := { o with sparse_data := ainsert o.sparse_data instance_id base }
      let wb := word_bit instance_id
      let o2 := ensure_presence_capacity o1 instance_id
      .ok { o2 with presence := o2.presence.set wb.1 (o2.presence.getD wb.1 0 ||| wb.2) }

/-- Models an assignment through the `&mut T` handle returned by `get_mut`:
it overwrites the `sparse_data` entry the handle points at. -/
def handle_write (o : Overlay T) (instance_id : Nat) (value : T) : Overlay T :=
  { o with sparse_data := ainsert o.sparse_data instance_id value }

/-- Rust `fn set`: sets an override value for `instance_id` (marks presence bit). -/
def set (o : Overlay T) (instance_id : Nat) (value : T) :
    Except (Overlay T) (Overlay T) :=
  if o.instance_len ≤ instance_id then .error o
  else
    let o1 : Overlay T := { o with sparse_data := ainsert o.sparse_data instance_id value }
    let wb := word_bit instance_id
    let o2 := ensure_presence_capacity o1 instance_id
    .ok { o2 with presence := o2.presence.set wb.1 (o2.presence.getD wb.1 0 ||| wb.2) }

/-- The tail of `fn swap_remove_instance` after the override at `index` was
cleared and (when `lastHas`) relocated: presence-bit fixup and length decrement. -/
def finish_swap (o : Overlay T) (lastHas : Bool) (index last : Nat) : Overlay T :=
  let iwb := word_bit index
  let lwb := word_bit last
  let oa := ensure_presence_capacity o index
  let ob := ensure_presence_capacity oa last
  let oc :=
    if lastHas then
      { ob with presence := ob.presence.set iwb.1 (ob.presence.getD iwb.1 0 ||| iwb.2) }
    else
      { ob with presence := ob.presence.set iwb.1 (ob.presence.getD iwb.1 0 &&& notU64 iwb.2) }
  let od := { oc with presence := oc.presence.set lwb.1 (oc.presence.getD lwb.1 0 &&& notU64 lwb.2) }
  { od with instance_len := od.instance_len - 1 }

/-- Rust `fn swap_remove_instance`: swap-remove an instance slot.  `.error` carries
the overlay state at the moment of the panic (out-of-bounds `index`, or the
"presence bit set for last but sparse_data missing entry" inconsistency). -/
def swap_remove_instance (o : Overlay T) (index : Nat) :
    Except (Overlay T) (Overlay T) :=
  if o.instance_len ≤ index then .error o
  else
    let last := o.instance_len - 1
    let o1 := o.clear_override index
    if index ≠ last then
      let lastHas := o1.has_override last
      if lastHas then
        match alookup o1.sparse_data last with
        | none => .error o1
        | some v =>
          let o2 : Overlay T :=
            { o1 with sparse_data := ainsert (aerase o1.sparse_data last) index v }
          .ok (finish_swap o2 true index last)
      else
        .ok (finish_swap o1 false index last)
    else
      let lwb := word_bit last
      let o2 : Overlay T :=
        { o1 with presence := o1.presence.set lwb.1 (o1.presence.getD lwb.1 0 &&& notU64 lwb.2) }
      .ok { o2 with instance_len := o2.instance_len - 1 }

/-- Rust `<Overlay<T> as Storage<T>>::init_from_prototypes`: copy template data,
clear per-instance overrides. -/
def init_from_prototypes (o prototypes : Overlay T) : Overlay T :=
  { o with
    dense_data := prototypes.dense_data,
    sparse_data := [],
    presence := [],
    instance_len := 0 }

/-- Rust `<Overlay<T> as Storage<T>>::push_json`: appends the decoded value (or the
type default on decode failure) to `dense_data`.  `dec` models
`serde_json::from_value::<T>` on the raw value type `V`; `dflt` models
`T::default()`. -/
def push_json {V : Type} (dec : V → Option T) (dflt : T) (o : Overlay T) (v : V) : Overlay T :=
  { o with dense_data := o.dense_data ++ [(dec v).getD dflt] }

end Overlay

/-- Rust `<Vec<T> as Storage<T>>::push_json`: appends the decoded value, or the
type default when decoding fails. -/
def push_json_vec {A V : Type} (dec : V → Option A) (dflt : A) (l : List A) (v : V) : List A :=
  l ++ [(dec v).getD dflt]

/-- Rust `Vec::swap_remove(i)`: move the last element into slot `i`, drop the last
slot.  Callers guarantee `i < l.length` (out of range panics before any
mutation, handled at the call sites). -/
def list_swap_remove {A : Type} (l : List A) (i : Nat) : List A :=
  match l.getLast? with
  | none => l
  | some x => (l.set i x).dropLast

/-- A table with a `prototype_id` column, one representative dense (`Vec`)
field and one representative overlay field, as generated by
`impl_load_prototype!(MySoA { prototype_id: usize, dcol: A, ocol: B })`.
Field types `A`, `B` are arbitrary, so these two columns stand for every
registered field of either storage kind. -/
structure Table (A B : Type) where
  prototype_id : List Nat
  dcol : List A
  ocol : Overlay B

namespace Table

variable {A B V W : Type}

/-- Rust `#[derive(Default)]` for the SoA struct. -/
def default : Table A B :=
  { prototype_id := [], dcol := [], ocol := Overlay.default }

/-- A decoded JSON record as seen by `load_prototype`: for each registered
field, either the raw value (`some v`, still to be decoded) or absence
(`none`, i.e. the key is missing from the object).  `idval` models any
id-like value (a `prototype_id` key) present in the input: `load_prototype`
never reads it. -/
structure DecodedRec (V W : Type) where
  dval : Option V
  oval : Option W
  idval : Option Nat

/-- Rust `fn load_prototype`: for each registered field, push the decoded value
when the key is present, else push the decoded `null` (both fall back to the
field's type default when decoding fails); then append the next sequential
prototype id.  `vnullA`/`vnullB` model `serde_json::Value::Null` at the raw
value types. -/
def load_prototype (decA : V → Option A) (dfltA : A) (vnullA : V)
    (decB : W → Option B) (dfltB : B) (vnullB : W)
    (t : Table A B) (r : DecodedRec V W) : Table A B :=
  let t1 := { t with dcol := push_json_vec decA dfltA t.dcol (r.dval.getD vnullA) }
  let t2 := { t1 with ocol := Overlay.push_json decB dfltB t1.ocol (r.oval.getD vnullB) }
  { t2 with prototype_id := t2.prototype_id ++ [t2.prototype_id.length] }

/-- Rust `fn new_from_prototypes`: default table, then `init_from_prototypes` on
every registered field (`prototype_id` is left at its default, empty). -/
def new_from_prototypes (prototypes : Table A B) : Table A B :=
  let out : Table A B := default
  { out with
    dcol := out.dcol,
    ocol := Overlay.init_from_prototypes out.ocol prototypes.ocol }

/-- Rust `fn spawn_entity`: push `prototype.prototype_id[prototype_index]`, then
each field's `push_from_prototype`.  `.error` carries the table state at the
moment an index panics, reflecting Rust evaluation order (the indexing
happens before the corresponding push). -/
def spawn_entity (t prototype : Table A B) (prototype_index : Nat) :
    Except (Table A B) (Table A B) :=
  match prototype.prototype_id.get? prototype_index with
  | none => .error t
  | some pid =>
    let t1 := { t with prototype_id := t.prototype_id ++ [pid] }
    match prototype.dcol.get? prototype_index with
    | none => .error t1
    | some dv =>
      let t2 := { t1 with dcol := t1.dcol ++ [dv] }
      .ok { t2 with ocol := t2.ocol.push_instance }

/-- Rust `fn swap_remove` (table-level despawn): swap-remove `index` from
`prototype_id` and every registered field's column in order.  `.error`
carries the table state at the moment a bounds panic fires. -/
def swap_remove (t : Table A B) (index : Nat) : Except (Table A B) (Table A B) :=
  if index < t.prototype_id.length then
    let t1 := { t with prototype_id := list_swap_remove t.prototype_id index }
    if index < t1.dcol.length then
      let t2 := { t1 with dcol := list_swap_remove t1.dcol index }
      match t2.ocol.swap_remove_instance index with
      | .error o => .error { t2 with ocol := o }
      | .ok o => .ok { t2 with ocol := o }
    else .error t1
  else .error t

end Table

/-! ### Presence-bitmap reasoning kit -/

/-- The logical presence bit of instance `i` in a word list, exactly as the
code addresses it: word `i / 64`, bit `i % 64`, missing words read as `0`. -/
def bitGet (pres : List Nat) (i : Nat) : Bool :=
  Nat.testBit (pres.getD (i / 64) 0) (i % 64)

theorem word_bit_fst (i : Nat) : (Overlay.word_bit i).1 = i / 64 := by
  simp [Overlay.word_bit, Nat.shiftRight_eq_div_pow]

theorem word_bit_snd (i : Nat) : (Overlay.word_bit i).2 = 2 ^ (i % 64) := by
  show 1 <<< (i &&& 63) = 2 ^ (i % 64)
  rw [Nat.one_shiftLeft]
  congr 1
  have h63 : (63 : Nat) = 2 ^ 6 - 1 := rfl
  rw [h63, Nat.and_pow_two_sub_one_eq_mod]

theorem and_mask_ne_zero (x b : Nat) : ((x &&& 2 ^ b) != 0) = x.testBit b := by
  rw [Nat.and_two_pow]
  cases h : x.testBit b <;> simp [h, (Nat.two_pow_pos b).ne']

theorem getD_zero_of_le (l : List Nat) (i : Nat) (h : l.length ≤ i) : l.getD i 0 = 0 := by
  simp [List.getD, List.getElem?_eq_none h]

theorem bitGet_nil (i : Nat) : bitGet [] i = false := by
  simp [bitGet, List.getD]

theorem bitGet_append_zeros (l : List Nat) (m i : Nat) :
    bitGet (l ++ List.replicate m 0) i = bitGet l i := by
  unfold bitGet
  rw [getD_append_zeros]

/-- Word/bit addressing is injective. -/
theorem eq_of_word_bit_eq {i j : Nat} (hw : i / 64 = j / 64) (hb : i % 64 = j % 64) : i = j := by
  omega

theorem notU64_testBit (b b' : Nat) (hb : b < 64) (hb' : b' < 64) :
    (notU64 (2 ^ b)).testBit b' = decide (b' ≠ b) := by
  simp only [notU64, u64max, Nat.testBit_xor, Nat.testBit_two_pow_sub_one, Nat.testBit_two_pow]
  by_cases h : b = b'
  · subst h; simp [hb]
  · have h' : ¬b' = b := fun hh => h hh.symm
    simp [hb', h, h']

/-- Setting the presence bit of `i` (`presence[word] |= mask`) turns bit `i`
on, provided the word is allocated. -/
theorem bitGet_or_self (l : List Nat) (i : Nat) (h : i / 64 < l.length) :
    bitGet (l.set (i / 64) (l.getD (i / 64) 0 ||| 2 ^ (i % 64))) i = true := by
  unfold bitGet
  rw [getD_set_self _ _ _ h, Nat.testBit_or, Nat.testBit_two_pow_self]
  simp

/-- Setting the presence bit of `i` leaves every other bit unchanged. -/
theorem bitGet_or_ne (l : List Nat) (i j : Nat) (hne : i ≠ j) :
    bitGet (l.set (i / 64) (l.getD (i / 64) 0 ||| 2 ^ (i % 64))) j = bitGet l j := by
  by_cases hw : i / 64 = j / 64
  · have hb : i % 64 ≠ j % 64 := fun hb => hne (eq_of_word_bit_eq hw hb)
    by_cases hlen : i / 64 < l.length
    · unfold bitGet
      rw [← hw, getD_set_self _ _ _ hlen, Nat.testBit_or,
        Nat.testBit_two_pow_of_ne hb, Bool.or_false]
    · rw [List.set_eq_of_length_le (Nat.le_of_not_lt hlen)]
  · unfold bitGet
    rw [getD_set_ne _ _ _ _ hw]

/-- Clearing the presence bit of `i` (`presence[word] &= !mask`) turns bit `i`
off (also when the word was never allocated, where it was off already). -/
theorem bitGet_andnot_self (l : List Nat) (i : Nat) :
    bitGet (l.set (i / 64) (l.getD (i / 64) 0 &&& notU64 (2 ^ (i % 64)))) i = false := by
  by_cases hlen : i / 64 < l.length
  · unfold bitGet
    rw [getD_set_self _ _ _ hlen, Nat.testBit_and,
      notU64_testBit _ _ (Nat.mod_lt _ (by norm_num)) (Nat.mod_lt _ (by norm_num))]
    simp
  · rw [List.set_eq_of_length_le (Nat.le_of_not_lt hlen)]
    unfold bitGet
    rw [getD_zero_of_le _ _ (Nat.le_of_not_lt hlen)]
    simp

/-- Clearing the presence bit of `i` leaves every other bit unchanged. -/
theorem bitGet_andnot_ne (l : List Nat) (i j : Nat) (hne : i ≠ j) :
    bitGet (l.set (i / 64) (l.getD (i / 64) 0 &&& notU64 (2 ^ (i % 64)))) j = bitGet l j := by
  by_cases hw : i / 64 = j / 64
  · have hb : ¬j % 64 = i % 64 := fun hb => hne (eq_of_word_bit_eq hw hb.symm)
    by_cases hlen : i / 64 < l.length
    · unfold bitGet
      rw [← hw, getD_set_self _ _ _ hlen, Nat.testBit_and,
        notU64_testBit _ _ (Nat.mod_lt _ (by norm_num)) (Nat.mod_lt _ (by norm_num))]
      simp [hb]
    · rw [List.set_eq_of_length_le (Nat.le_of_not_lt hlen)]
  · unfold bitGet
    rw [getD_set_ne _ _ _ _ hw]

namespace Overlay

variable {T : Type}

theorem has_override_eq (o : Overlay T) (i : Nat) :
    o.has_override i = (decide (i < o.instance_len) && bitGet o.presence i) := by
  unfold has_override
  by_cases h : o.instance_len ≤ i
  · simp [h, Nat.not_lt.mpr h]
  · simp only [h, if_false, word_bit_fst, word_bit_snd, and_mask_ne_zero]
    simp [Nat.lt_of_not_le h, bitGet]

theorem epc_dense (o : Overlay T) (i : Nat) :
    (o.ensure_presence_capacity i).dense_data = o.dense_data := by
  simp only [ensure_presence_capacity]
  split <;> rfl

theorem epc_sparse (o : Overlay T) (i : Nat) :
    (o.ensure_presence_capacity i).sparse_data = o.sparse_data := by
  simp only [ensure_presence_capacity]
  split <;> rfl

theorem epc_len (o : Overlay T) (i : Nat) :
    (o.ensure_presence_capacity i).instance_len = o.instance_len := by
  simp only [ensure_presence_capacity]
  split <;> rfl

theorem epc_bitGet (o : Overlay T) (i j : Nat) :
    bitGet (o.ensure_presence_capacity i).presence j = bitGet o.presence j := by
  simp only [ensure_presence_capacity]
  split
  · exact bitGet_append_zeros _ _ _
  · rfl

theorem epc_cap (o : Overlay T) (i : Nat) :
    i / 64 < (o.ensure_presence_capacity i).presence.length := by
  simp only [ensure_presence_capacity, word_bit_fst]
  split <;> rename_i h <;> simp at h ⊢ <;> omega

theorem epc_cap_le (o : Overlay T) (i : Nat) :
    o.presence.length ≤ (o.ensure_presence_capacity i).presence.length := by
  simp only [ensure_presence_capacity]
  split <;> simp

/-! ### Behavioural specifications of the overlay operations -/

theorem push_instance_spec (o : Overlay T) :
    (o.push_instance).dense_data = o.dense_data ∧
    (o.push_instance).sparse_data = o.sparse_data ∧
    (o.push_instance).instance_len = o.instance_len + 1 ∧
    ∀ j, bitGet (o.push_instance).presence j = bitGet o.presence j := by
  refine ⟨epc_dense _ _, epc_sparse _ _, epc_len _ _, fun j => epc_bitGet _ _ _⟩

theorem clear_override_oob (o : Overlay T) (i : Nat) (h : o.instance_len ≤ i) :
    o.clear_override i = o := by
  simp [clear_override, h]

theorem clear_override_spec (o : Overlay T) (i : Nat) (h : i < o.instance_len) :
    (o.clear_override i).dense_data = o.dense_data ∧
    (o.clear_override i).instance_len = o.instance_len ∧
    (o.clear_override i).sparse_data = aerase o.sparse_data i ∧
    bitGet (o.clear_override i).presence i = false ∧
    ∀ j, j ≠ i → bitGet (o.clear_override i).presence j = bitGet o.presence j := by
  have hb : ¬o.instance_len ≤ i := Nat.not_le.mpr h
  simp only [clear_override, hb, if_false, word_bit_fst, word_bit_snd]
  exact ⟨trivial, trivial, trivial, bitGet_andnot_self _ _,
    fun j hj => bitGet_andnot_ne _ _ _ (Ne.symm hj)⟩

theorem set_error (o : Overlay T) (i : Nat) (v : T) (h : o.instance_len ≤ i) :
    o.set i v = .error o := by
  simp [Overlay.set, h]

theorem set_ok_spec {o o' : Overlay T} {i : Nat} {v : T} (h : o.set i v = .ok o') :
    i < o.instance_len ∧
    o'.dense_data = o.dense_data ∧
    o'.instance_len = o.instance_len ∧
    o'.sparse_data = ainsert o.sparse_data i v ∧
    bitGet o'.presence i = true ∧
    ∀ j, j ≠ i → bitGet o'.presence j = bitGet o.presence j := by
  by_cases hb : o.instance_len ≤ i
  · rw [set_error o i v hb] at h
    exact absurd h (by simp)
  · simp only [Overlay.set, hb, if_false, word_bit_fst, word_bit_snd,
      Except.ok.injEq] at h
    subst h
    refine ⟨Nat.lt_of_not_le hb, epc_dense _ _, epc_len _ _, epc_sparse _ _, ?_, ?_⟩
    · exact bitGet_or_self _ _ (epc_cap _ _)
    · intro j hj
      rw [bitGet_or_ne _ _ _ (Ne.symm hj), epc_bitGet]

theorem get_mut_error_state {o s : Overlay T} {i p : Nat}
    (h : o.get_mut i p = .error s) : s = o := by
  simp only [get_mut] at h
  split at h
  · exact (Except.error.injEq _ _ ▸ h).symm
  · split at h
    · split at h <;> simp_all
    · split at h <;> simp_all [word_bit_fst, word_bit_snd]

theorem get_mut_oob (o : Overlay T) (i p : Nat) (h : o.instance_len ≤ i) :
    o.get_mut i p = .error o := by
  simp [get_mut, h]

theorem get_mut_ok_spec {o o' : Overlay T} {i p : Nat} (h : o.get_mut i p = .ok o') :
    i < o.instance_len ∧
    o'.dense_data = o.dense_data ∧
    o'.instance_len = o.instance_len ∧
    ((o.has_override i = true ∧ o' = o ∧ (alookup o.sparse_data i).isSome = true) ∨
     (o.has_override i = false ∧ ∃ base, o.dense_data.get? p = some base ∧
        o'.sparse_data = ainsert o.sparse_data i base ∧
        bitGet o'.presence i = true ∧
        ∀ j, j ≠ i → bitGet o'.presence j = bitGet o.presence j)) := by
  by_cases hb : o.instance_len ≤ i
  · rw [get_mut_oob o i p hb] at h
    exact absurd h (by simp)
  · simp only [get_mut, hb, if_false] at h
    split at h
    · rename_i hov
      split at h <;> rename_i hlook
      · simp only [Except.ok.injEq] at h
        subst h
        exact ⟨Nat.lt_of_not_le hb, rfl, rfl, .inl ⟨hov, rfl, by simp [hlook]⟩⟩
      · simp at h
    · rename_i hov
      split at h <;> rename_i base hlook
      · simp at h
      · simp only [word_bit_fst, word_bit_snd, Except.ok.injEq] at h
        subst h
        refine ⟨Nat.lt_of_not_le hb, epc_dense _ _, epc_len _ _,
          .inr ⟨Bool.eq_false_iff.mpr hov, base, hlook, epc_sparse _ _, ?_, ?_⟩⟩
        · exact bitGet_or_self _ _ (epc_cap _ _)
        · intro j hj
          rw [bitGet_or_ne _ _ _ (Ne.symm hj), epc_bitGet]

theorem handle_write_spec (o : Overlay T) (i : Nat) (v : T) :
    (o.handle_write i v).dense_data = o.dense_data ∧
    (o.handle_write i v).instance_len = o.instance_len ∧
    (o.handle_write i v).presence = o.presence ∧
    (o.handle_write i v).sparse_data = ainsert o.sparse_data i v :=
  ⟨rfl, rfl, rfl, rfl⟩

theorem finish_swap_dense (o : Overlay T) (lastHas : Bool) (k last : Nat) :
    (finish_swap o lastHas k last).dense_data = o.dense_data := by
  simp only [finish_swap]
  cases lastHas <;> simp [epc_dense]

theorem finish_swap_sparse (o : Overlay T) (lastHas : Bool) (k last : Nat) :
    (finish_swap o lastHas k last).sparse_data = o.sparse_data := by
  simp only [finish_swap]
  cases lastHas <;> simp [epc_sparse]

theorem finish_swap_len (o : Overlay T) (lastHas : Bool) (k last : Nat) :
    (finish_swap o lastHas k last).instance_len = o.instance_len - 1 := by
  simp only [finish_swap]
  cases lastHas <;> simp [epc_len]

theorem finish_swap_bit_last (o : Overlay T) (lastHas : Bool) (k last : Nat) :
    bitGet (finish_swap o lastHas k last).presence last = false := by
  simp only [finish_swap, word_bit_fst, word_bit_snd]
  cases lastHas <;> simp only [if_true, if_false, Bool.false_eq_true] <;>
    exact bitGet_andnot_self _ _

theorem finish_swap_bit_k (o : Overlay T) (lastHas : Bool) (k last : Nat) (hne : k ≠ last) :
    bitGet (finish_swap o lastHas k last).presence k = lastHas := by
  simp only [finish_swap, word_bit_fst, word_bit_snd]
  cases lastHas
  · simp only [Bool.false_eq_true, if_false]
    rw [bitGet_andnot_ne _ _ _ (Ne.symm hne)]
    exact bitGet_andnot_self _ _
  · simp only [if_true]
    rw [bitGet_andnot_ne _ _ _ (Ne.symm hne)]
    exact bitGet_or_self _ _
      (Nat.lt_of_lt_of_le (epc_cap _ _) (epc_cap_le _ _))

theorem finish_swap_bit_other (o : Overlay T) (lastHas : Bool) (k last j : Nat)
    (hk : j ≠ k) (hl : j ≠ last) :
    bitGet (finish_swap o lastHas k last).presence j = bitGet o.presence j := by
  simp only [finish_swap, word_bit_fst, word_bit_snd]
  cases lastHas
  · simp only [Bool.false_eq_true, if_false]
    rw [bitGet_andnot_ne _ _ _ (Ne.symm hl), bitGet_andnot_ne _ _ _ (Ne.symm hk),
      epc_bitGet, epc_bitGet]
  · simp only [if_true]
    rw [bitGet_andnot_ne _ _ _ (Ne.symm hl), bitGet_or_ne _ _ _ (Ne.symm hk),
      epc_bitGet, epc_bitGet]

theorem swap_remove_oob (o : Overlay T) (k : Nat) (h : o.instance_len ≤ k) :
    o.swap_remove_instance k = .error o := by
  simp [swap_remove_instance, h]

/-- Full behavioural specification of a successful `swap_remove_instance`. -/
theorem swap_remove_ok_spec {o o' : Overlay T} {k : Nat}
    (h : o.swap_remove_instance k = .ok o') :
    k < o.instance_len ∧
    o'.dense_data = o.dense_data ∧
    o'.instance_len = o.instance_len - 1 ∧
    bitGet o'.presence (o.instance_len - 1) = false ∧
    (∀ j, j ≠ k → j ≠ o.instance_len - 1 →
      bitGet o'.presence j = bitGet o.presence j ∧
      alookup o'.sparse_data j = alookup o.sparse_data j) ∧
    (k = o.instance_len - 1 →
      bitGet o'.presence k = false ∧ alookup o'.sparse_data k = none) ∧
    (k ≠ o.instance_len - 1 →
      (o.has_override (o.instance_len - 1) = true →
        bitGet o'.presence k = true ∧
        alookup o'.sparse_data k = alookup o.sparse_data (o.instance_len - 1) ∧
        (alookup o.sparse_data (o.instance_len - 1)).isSome = true ∧
        alookup o'.sparse_data (o.instance_len - 1) = none) ∧
      (o.has_override (o.instance_len - 1) = false →
        bitGet o'.presence k = false ∧ alookup o'.sparse_data k = none ∧
        alookup o'.sparse_data (o.instance_len - 1) =
          alookup o.sparse_data (o.instance_len - 1))) := by
  by_cases hb : o.instance_len ≤ k
  · rw [swap_remove_oob o k hb] at h
    exact absurd h (by simp)
  · have hlt : k < o.instance_len := Nat.lt_of_not_le hb
    obtain ⟨hc_dense, hc_len, hc_sparse, hc_bit, hc_bits⟩ := clear_override_spec o k hlt
    simp only [swap_remove_instance, hb, if_false] at h
    by_cases hne : k ≠ o.instance_len - 1
    · rw [if_pos hne] at h
      -- the override state of the last slot is unchanged by clear_override k
      have hov1 : (o.clear_override k).has_override (o.instance_len - 1) =
          o.has_override (o.instance_len - 1) := by
        rw [has_override_eq, has_override_eq, hc_len, hc_bits _ (Ne.symm hne)]
      have hlook1 : alookup (o.clear_override k).sparse_data (o.instance_len - 1) =
          alookup o.sparse_data (o.instance_len - 1) := by
        rw [hc_sparse, alookup_aerase_ne _ _ _ hne]
      split at h
      · rename_i hlh
        split at h <;> rename_i hlook
        · simp at h
        · rename_i v
          simp only [Except.ok.injEq] at h
          subst h
          rw [hlook1] at hlook
          rw [hov1] at hlh
          refine ⟨hlt, ?_, ?_, ?_, ?_, fun hk => absurd hk hne, fun _ => ⟨fun _ => ?_, ?_⟩⟩
          · rw [finish_swap_dense]; exact hc_dense
          · rw [finish_swap_len]; rw [hc_len]
          · exact finish_swap_bit_last _ _ _ _
          · intro j hjk hjl
            refine ⟨?_, ?_⟩
            · rw [finish_swap_bit_other _ _ _ _ _ hjk hjl]
              exact hc_bits _ hjk
            · rw [finish_swap_sparse]
              show alookup (ainsert _ _ _) j = _
              rw [alookup_ainsert_ne _ _ _ _ (Ne.symm hjk),
                alookup_aerase_ne _ _ _ (fun hh => hjl hh.symm), hc_sparse,
                alookup_aerase_ne _ _ _ (fun hh => hjk hh.symm)]
          · refine ⟨finish_swap_bit_k _ _ _ _ hne, ?_, by rw [hlook]; rfl, ?_⟩
            · rw [finish_swap_sparse]
              show alookup (ainsert _ _ _) k = _
              rw [alookup_ainsert_self, hlook]
            · rw [finish_swap_sparse]
              show alookup (ainsert _ _ _) _ = none
              rw [alookup_ainsert_ne _ _ _ _ hne, alookup_aerase_self]
          · intro hfalse
            rw [hlh] at hfalse
            exact absurd hfalse (by simp)
      · rename_i hlh
        have hlh' : (o.clear_override k).has_override (o.instance_len - 1) = false :=
          Bool.eq_false_iff.mpr hlh
        simp only [Except.ok.injEq] at h
        subst h
        rw [hov1] at hlh'
        refine ⟨hlt, ?_, ?_, ?_, ?_, fun hk => absurd hk hne, fun _ => ⟨?_, fun _ => ?_⟩⟩
        · rw [finish_swap_dense]; exact hc_dense
        · rw [finish_swap_len]; rw [hc_len]
        · exact finish_swap_bit_last _ _ _ _
        · intro j hjk hjl
          refine ⟨?_, ?_⟩
          · rw [finish_swap_bit_other _ _ _ _ _ hjk hjl]
            exact hc_bits _ hjk
          · rw [finish_swap_sparse, hc_sparse,
              alookup_aerase_ne _ _ _ (fun hh => hjk hh.symm)]
        · intro htrue
          rw [hlh'] at htrue
          exact absurd htrue (by simp)
        · refine ⟨?_, ?_, ?_⟩
          · rw [finish_swap_bit_k _ _ _ _ hne]
          · rw [finish_swap_sparse, hc_sparse, alookup_aerase_self]
          · rw [finish_swap_sparse, hc_sparse, alookup_aerase_ne _ _ _ hne]
    · push_neg at hne
      subst hne
      rw [if_neg (by simp)] at h
      simp only [word_bit_fst, word_bit_snd, Except.ok.injEq] at h
      subst h
      refine ⟨hlt, hc_dense, by rw [hc_len], bitGet_andnot_self _ _,
        ?_, fun _ => ⟨bitGet_andnot_self _ _, by rw [hc_sparse, alookup_aerase_self]⟩,
        fun hk => absurd rfl hk⟩
      intro j hjk _
      refine ⟨?_, ?_⟩
      · rw [bitGet_andnot_ne _ _ _ (Ne.symm hjk)]
        exact hc_bits _ hjk
      · rw [hc_sparse, alookup_aerase_ne _ _ _ (fun hh => hjk hh.symm)]

/-- The overlay consistency invariant of the spec, in its strong form: a set
presence bit always corresponds to a live instance with a mapping entry, and
a mapping entry always corresponds to a live instance with a set bit.
Restricted to `i < instance_len` this is the spec's "bit iff entry";
the parts about `i ≥ instance_len` are the no-stale-state invariant. -/
def Inv (o : Overlay T) : Prop :=
  (∀ i, bitGet o.presence i = true →
    i < o.instance_len ∧ (alookup o.sparse_data i).isSome = true) ∧
  (∀ i, (alookup o.sparse_data i).isSome = true →
    i < o.instance_len ∧ bitGet o.presence i = true)

/-- Overlay states reachable by the public operations, starting from
`Overlay::default()`.  Fallible operations contribute their success states;
a panic aborts and yields no state. -/
inductive Reachable : Overlay T → Prop
  | dflt : Reachable Overlay.default
  | seed (o p : Overlay T) : Reachable o → Reachable (o.init_from_prototypes p)
  | ingest {V : Type} (dec : V → Option T) (dflt : T) (o : Overlay T) (v : V) :
      Reachable o → Reachable (Overlay.push_json dec dflt o v)
  | slot (o : Overlay T) : Reachable o → Reachable o.push_instance
  | write (o o' : Overlay T) (i p : Nat) :
      Reachable o → o.get_mut i p = .ok o' → Reachable o'
  | handle (o : Overlay T) (i : Nat) (v : T) :
      Reachable o → o.has_override i = true → Reachable (o.handle_write i v)
  | assign (o o' : Overlay T) (i : Nat) (v : T) :
      Reachable o → o.set i v = .ok o' → Reachable o'
  | clear (o : Overlay T) (i : Nat) : Reachable o → Reachable (o.clear_override i)
  | remove (o o' : Overlay T) (k : Nat) :
      Reachable o → o.swap_remove_instance k = .ok o' → Reachable o'

theorem inv_default : Inv (Overlay.default (T := T)) := by
  constructor <;> intro i hi
  · rw [show (Overlay.default (T := T)).presence = [] from rfl, bitGet_nil] at hi
    cases hi
  · rw [show (Overlay.default (T := T)).sparse_data = [] from rfl] at hi
    simp at hi

theorem inv_init (o p : Overlay T) : Inv (o.init_from_prototypes p) := by
  constructor <;> intro i hi
  · rw [show (o.init_from_prototypes p).presence = [] from rfl, bitGet_nil] at hi
    cases hi
  · rw [show (o.init_from_prototypes p).sparse_data = [] from rfl] at hi
    simp at hi

theorem inv_push_json {V : Type} (dec : V → Option T) (dflt : T) (o : Overlay T) (v : V)
    (hInv : Inv o) : Inv (push_json dec dflt o v) := hInv

theorem inv_push_instance (o : Overlay T) (hInv : Inv o) : Inv o.push_instance := by
  obtain ⟨hd, hs, hl, hbits⟩ := push_instance_spec o
  constructor <;> intro i hi
  · rw [hbits] at hi
    obtain ⟨h1, h2⟩ := hInv.1 i hi
    rw [hs, hl]
    exact ⟨Nat.lt_succ_of_lt h1, h2⟩
  · rw [hs] at hi
    obtain ⟨h1, h2⟩ := hInv.2 i hi
    rw [hl, hbits]
    exact ⟨Nat.lt_succ_of_lt h1, h2⟩

theorem inv_set {o o' : Overlay T} {i : Nat} {v : T}
    (hInv : Inv o) (h : o.set i v = .ok o') : Inv o' := by
  obtain ⟨hlt, hd, hl, hs, hbi, hbj⟩ := set_ok_spec h
  constructor <;> intro j hj
  · by_cases hij : j = i
    · subst hij
      rw [hs, hl]
      exact ⟨hlt, by rw [alookup_ainsert_self]; rfl⟩
    · rw [hbj j hij] at hj
      obtain ⟨h1, h2⟩ := hInv.1 j hj
      rw [hs, hl, alookup_ainsert_ne _ _ _ _ (fun hh => hij hh.symm)]
      exact ⟨h1, h2⟩
  · by_cases hij : j = i
    · subst hij
      rw [hl, hbi]
      exact ⟨hlt, rfl⟩
    · rw [hs, alookup_ainsert_ne _ _ _ _ (fun hh => hij hh.symm)] at hj
      obtain ⟨h1, h2⟩ := hInv.2 j hj
      rw [hl, hbj j hij]
      exact ⟨h1, h2⟩

theorem inv_get_mut {o o' : Overlay T} {i p : Nat}
    (hInv : Inv o) (h : o.get_mut i p = .ok o') : Inv o' := by
  obtain ⟨hlt, hd, hl, hcase⟩ := get_mut_ok_spec h
  rcases hcase with ⟨_, heq, _⟩ | ⟨_, base, hbase, hs, hbi, hbj⟩
  · rw [heq]; exact hInv
  · constructor <;> intro j hj
    · by_cases hij : j = i
      · subst hij
        rw [hs, hl]
        exact ⟨hlt, by rw [alookup_ainsert_self]; rfl⟩
      · rw [hbj j hij] at hj
        obtain ⟨h1, h2⟩ := hInv.1 j hj
        rw [hs, hl, alookup_ainsert_ne _ _ _ _ (fun hh => hij hh.symm)]
        exact ⟨h1, h2⟩
    · by_cases hij : j = i
      · subst hij
        rw [hl, hbi]
        exact ⟨hlt, rfl⟩
      · rw [hs, alookup_ainsert_ne _ _ _ _ (fun hh => hij hh.symm)] at hj
        obtain ⟨h1, h2⟩ := hInv.2 j hj
        rw [hl, hbj j hij]
        exact ⟨h1, h2⟩

theorem inv_handle_write {o : Overlay T} {i : Nat} {v : T}
    (hInv : Inv o) (h : o.has_override i = true) : Inv (o.handle_write i v) := by
  rw [has_override_eq] at h
  obtain ⟨hlt, hbit⟩ := by simpa using h
  constructor <;> intro j hj
  · show _ ∧ (alookup (ainsert o.sparse_data i v) j).isSome = true
    by_cases hij : j = i
    · subst hij
      exact ⟨hlt, by rw [alookup_ainsert_self]; rfl⟩
    · obtain ⟨h1, h2⟩ := hInv.1 j hj
      rw [alookup_ainsert_ne _ _ _ _ (fun hh => hij hh.symm)]
      exact ⟨h1, h2⟩
  · replace hj : (alookup (ainsert o.sparse_data i v) j).isSome = true := hj
    by_cases hij : j = i
    · subst hij
      exact ⟨hlt, hbit⟩
    · rw [alookup_ainsert_ne _ _ _ _ (fun hh => hij hh.symm)] at hj
      exact hInv.2 j hj

theorem inv_clear (o : Overlay T) (i : Nat) (hInv : Inv o) : Inv (o.clear_override i) := by
  by_cases hb : o.instance_len ≤ i
  · rw [clear_override_oob o i hb]; exact hInv
  · obtain ⟨hd, hl, hs, hbi, hbj⟩ := clear_override_spec o i (Nat.lt_of_not_le hb)
    constructor <;> intro j hj
    · by_cases hij : j = i
      · subst hij; rw [hbi] at hj; cases hj
      · rw [hbj j hij] at hj
        obtain ⟨h1, h2⟩ := hInv.1 j hj
        rw [hs, hl, alookup_aerase_ne _ _ _ (fun hh => hij hh.symm)]
        exact ⟨h1, h2⟩
    · by_cases hij : j = i
      · subst hij
        rw [hs, alookup_aerase_self] at hj
        cases hj
      · rw [hs, alookup_aerase_ne _ _ _ (fun hh => hij hh.symm)] at hj
        obtain ⟨h1, h2⟩ := hInv.2 j hj
        rw [hl, hbj j hij]
        exact ⟨h1, h2⟩

theorem inv_swap_remove {o o' : Overlay T} {k : Nat}
    (hInv : Inv o) (h : o.swap_remove_instance k = .ok o') : Inv o' := by
  obtain ⟨hlt, hd, hl, hblast, hother, hkeq, hkne⟩ := swap_remove_ok_spec h
  have hlast_lt : o.instance_len - 1 < o.instance_len := by omega
  by_cases hke : k = o.instance_len - 1
  · obtain ⟨hbk, hlk⟩ := hkeq hke
    constructor <;> intro j hj
    · by_cases hjk : j = k
      · subst hjk; rw [hbk] at hj; cases hj
      · have hjl : j ≠ o.instance_len - 1 := fun hh => hjk (hh.trans hke.symm)
        obtain ⟨hb, hlook⟩ := hother j hjk hjl
        rw [hb] at hj
        obtain ⟨h1, h2⟩ := hInv.1 j hj
        rw [hl, hlook]
        refine ⟨by omega, h2⟩
    · by_cases hjk : j = k
      · subst hjk; rw [hlk] at hj; cases hj
      · have hjl : j ≠ o.instance_len - 1 := fun hh => hjk (hh.trans hke.symm)
        obtain ⟨hb, hlook⟩ := hother j hjk hjl
        rw [hlook] at hj
        obtain ⟨h1, h2⟩ := hInv.2 j hj
        rw [hl, hb]
        refine ⟨by omega, h2⟩
  · obtain ⟨htrue, hfalse⟩ := hkne hke
    by_cases hov : o.has_override (o.instance_len - 1) = true
    · obtain ⟨hbk, hlk, hlsome, hllast⟩ := htrue hov
      constructor <;> intro j hj
      · by_cases hjk : j = k
        · subst hjk
          rw [hl, hlk]
          exact ⟨by omega, hlsome⟩
        · by_cases hjl : j = o.instance_len - 1
          · subst hjl; rw [hblast] at hj; cases hj
          · obtain ⟨hb, hlook⟩ := hother j hjk hjl
            rw [hb] at hj
            obtain ⟨h1, h2⟩ := hInv.1 j hj
            rw [hl, hlook]
            refine ⟨by omega, h2⟩
      · by_cases hjk : j = k
        · subst hjk
          rw [hl, hbk]
          exact ⟨by omega, rfl⟩
        · by_cases hjl : j = o.instance_len - 1
          · subst hjl; rw [hllast] at hj; cases hj
          · obtain ⟨hb, hlook⟩ := hother j hjk hjl
            rw [hlook] at hj
            obtain ⟨h1, h2⟩ := hInv.2 j hj
            rw [hl, hb]
            refine ⟨by omega, h2⟩
    · replace hov : o.has_override (o.instance_len - 1) = false := Bool.eq_false_iff.mpr hov
      obtain ⟨hbk, hlk, hllast⟩ := hfalse hov
      -- the last slot had no override; by the invariant it has no mapping entry
      have hlast_none : alookup o.sparse_data (o.instance_len - 1) = none := by
        rcases hcase : alookup o.sparse_data (o.instance_len - 1) with _ | v
        · rfl
        · obtain ⟨h1, h2⟩ := hInv.2 (o.instance_len - 1) (by rw [hcase]; rfl)
          rw [has_override_eq] at hov
          simp [h1, h2] at hov
      constructor <;> intro j hj
      · by_cases hjk : j = k
        · subst hjk; rw [hbk] at hj; cases hj
        · by_cases hjl : j = o.instance_len - 1
          · subst hjl; rw [hblast] at hj; cases hj
          · obtain ⟨hb, hlook⟩ := hother j hjk hjl
            rw [hb] at hj
            obtain ⟨h1, h2⟩ := hInv.1 j hj
            rw [hl, hlook]
            refine ⟨by omega, h2⟩
      · by_cases hjk : j = k
        · subst hjk; rw [hlk] at hj; cases hj
        · by_cases hjl : j = o.instance_len - 1
          · subst hjl
            rw [hllast, hlast_none] at hj
            cases hj
          · obtain ⟨hb, hlook⟩ := hother j hjk hjl
            rw [hlook] at hj
            obtain ⟨h1, h2⟩ := hInv.2 j hj
            rw [hl, hb]
            refine ⟨by omega, h2⟩

/-- Every reachable overlay state satisfies the consistency invariant. -/
theorem reachable_inv {o : Overlay T} (h : Reachable o) : Inv o := by
  induction h with
  | dflt => exact inv_default
  | seed o p _ _ => exact inv_init o p
  | ingest dec dflt o v _ ih => exact inv_push_json dec dflt o v ih
  | slot o _ ih => exact inv_push_instance o ih
  | write o o' i p _ hok ih => exact inv_get_mut ih hok
  | handle o i v _ hov ih => exact inv_handle_write ih hov
  | assign o o' i v _ hok ih => exact inv_set ih hok
  | clear o i _ ih => exact inv_clear o i ih
  | remove o o' k _ hok ih => exact inv_swap_remove ih hok

end Overlay

/-! ### Table-level machinery -/

theorem list_swap_remove_length {A : Type} (l : List A) (k : Nat) (h : k < l.length) :
    (list_swap_remove l k).length = l.length - 1 := by
  unfold list_swap_remove
  rcases hl : l.getLast? with _ | x
  · rw [List.getLast?_eq_getElem?] at hl
    have : l.length - 1 < l.length := by omega
    simp [List.getElem?_eq_getElem this] at hl
  · simp

theorem list_swap_remove_get_k {A : Type} (l : List A) (k : Nat) (h : k < l.length - 1) :
    (list_swap_remove l k).get? k = l.get? (l.length - 1) := by
  unfold list_swap_remove
  rcases hl : l.getLast? with _ | x
  · exfalso
    rw [List.getLast?_eq_getElem?] at hl
    have hlt : l.length - 1 < l.length := by omega
    simp [List.getElem?_eq_getElem hlt] at hl
  · simp only [hl]
    rw [List.get?_eq_getElem?, List.get?_eq_getElem?, List.getElem?_dropLast]
    simp only [List.length_set]
    rw [if_pos h, List.getElem?_set_self (by omega : k < l.length)]
    rw [List.getLast?_eq_getElem?] at hl
    exact hl.symm

theorem list_swap_remove_get_other {A : Type} (l : List A) (k j : Nat)
    (hj : j ≠ k) (hlt : j < l.length - 1) :
    (list_swap_remove l k).get? j = l.get? j := by
  unfold list_swap_remove
  rcases hl : l.getLast? with _ | x
  · rfl
  · simp only [hl]
    rw [List.get?_eq_getElem?, List.get?_eq_getElem?, List.getElem?_dropLast]
    simp only [List.length_set]
    rw [if_pos hlt, List.getElem?_set_ne (fun hh => hj hh.symm)]

namespace Table

variable {A B V W : Type}

variable (decA : V → Option A) (dfltA : A) (vnullA : V)
variable (decB : W → Option B) (dfltB : B) (vnullB : W)

/-- Folding `load_prototype` over a list of decoded records. -/
def load_all (t : Table A B) (rs : List (DecodedRec V W)) : Table A B :=
  rs.foldl (load_prototype decA dfltA vnullA decB dfltB vnullB) t

theorem load_prototype_fields (t : Table A B) (r : DecodedRec V W) :
    (load_prototype decA dfltA vnullA decB dfltB vnullB t r).prototype_id =
      t.prototype_id ++ [t.prototype_id.length] ∧
    (load_prototype decA dfltA vnullA decB dfltB vnullB t r).dcol =
      t.dcol ++ [(decA (r.dval.getD vnullA)).getD dfltA] ∧
    (load_prototype decA dfltA vnullA decB dfltB vnullB t r).ocol.dense_data =
      t.ocol.dense_data ++ [(decB (r.oval.getD vnullB)).getD dfltB] ∧
    (load_prototype decA dfltA vnullA decB dfltB vnullB t r).ocol.sparse_data =
      t.ocol.sparse_data ∧
    (load_prototype decA dfltA vnullA decB dfltB vnullB t r).ocol.presence =
      t.ocol.presence ∧
    (load_prototype decA dfltA vnullA decB dfltB vnullB t r).ocol.instance_len =
      t.ocol.instance_len :=
  ⟨rfl, rfl, rfl, rfl, rfl, rfl⟩

theorem load_all_prototype_id (rs : List (DecodedRec V W)) (t : Table A B) :
    (load_all decA dfltA vnullA decB dfltB vnullB t rs).prototype_id =
      t.prototype_id ++ List.range' t.prototype_id.length rs.length := by
  induction rs generalizing t with
  | nil => simp [load_all]
  | cons r rs ih =>
    show (load_all decA dfltA vnullA decB dfltB vnullB
      (load_prototype decA dfltA vnullA decB dfltB vnullB t r) rs).prototype_id = _
    rw [ih]
    rw [(load_prototype_fields decA dfltA vnullA decB dfltB vnullB t r).1]
    simp [List.range'_succ]

theorem load_all_lengths (rs : List (DecodedRec V W)) (t : Table A B) :
    (load_all decA dfltA vnullA decB dfltB vnullB t rs).prototype_id.length =
      t.prototype_id.length + rs.length ∧
    (load_all decA dfltA vnullA decB dfltB vnullB t rs).dcol.length =
      t.dcol.length + rs.length ∧
    (load_all decA dfltA vnullA decB dfltB vnullB t rs).ocol.dense_data.length =
      t.ocol.dense_data.length + rs.length := by
  induction rs generalizing t with
  | nil => exact ⟨rfl, rfl, rfl⟩
  | cons r rs ih =>
    obtain ⟨h1, h2, h3⟩ :=
      ih (load_prototype decA dfltA vnullA decB dfltB vnullB t r)
    obtain ⟨f1, f2, f3, _, _, _⟩ := load_prototype_fields decA dfltA vnullA decB dfltB vnullB t r
    refine ⟨?_, ?_, ?_⟩
    · show (load_all decA dfltA vnullA decB dfltB vnullB _ rs).prototype_id.length = _
      rw [h1, f1]; simp; omega
    · show (load_all decA dfltA vnullA decB dfltB vnullB _ rs).dcol.length = _
      rw [h2, f2]; simp; omega
    · show (load_all decA dfltA vnullA decB dfltB vnullB _ rs).ocol.dense_data.length = _
      rw [h3, f3]; simp; omega

/-- A freshly derived instance table evolved only by spawning, plus writes
(`get_mut` and mutation through its handle) and assignments (`set`) on the
overlay column; `S` collects the instance ids that have been written or
assigned. -/
inductive DerivedFresh (P : Table A B) : Table A B → List Nat → Prop
  | base : DerivedFresh P (new_from_prototypes P) []
  | spawn (t t' : Table A B) (S : List Nat) (kidx : Nat) :
      DerivedFresh P t S → spawn_entity t P kidx = .ok t' → DerivedFresh P t' S
  | write (t : Table A B) (S : List Nat) (j p : Nat) (o' : Overlay B) :
      DerivedFresh P t S → t.ocol.get_mut j p = .ok o' →
      DerivedFresh P { t with ocol := o' } (j :: S)
  | handle (t : Table A B) (S : List Nat) (j : Nat) (v : B) :
      DerivedFresh P t S → t.ocol.has_override j = true →
      DerivedFresh P { t with ocol := t.ocol.handle_write j v } (j :: S)
  | assign (t : Table A B) (S : List Nat) (j : Nat) (v : B) (o' : Overlay B) :
      DerivedFresh P t S → t.ocol.set j v = .ok o' →
      DerivedFresh P { t with ocol := o' } (j :: S)

theorem spawn_ok_spec {t P t' : Table A B} {kidx : Nat}
    (h : spawn_entity t P kidx = .ok t') :
    ∃ pid dv, P.prototype_id.get? kidx = some pid ∧ P.dcol.get? kidx = some dv ∧
      t'.prototype_id = t.prototype_id ++ [pid] ∧
      t'.dcol = t.dcol ++ [dv] ∧
      t'.ocol = t.ocol.push_instance := by
  unfold spawn_entity at h
  rcases h1 : P.prototype_id.get? kidx with _ | pid
  · rw [h1] at h; simp at h
  · rw [h1] at h
    rcases h2 : P.dcol.get? kidx with _ | dv
    · rw [h2] at h; simp at h
    · rw [h2] at h
      simp only [Except.ok.injEq] at h
      subst h
      refine ⟨pid, dv, rfl, rfl, ?_, ?_, ?_⟩ <;> rfl

/-- Structural facts preserved along every `DerivedFresh` trace. -/
theorem derived_facts {P t : Table A B} {S : List Nat}
    (hPwf : ∀ i pid, P.prototype_id.get? i = some pid →
      pid < P.ocol.dense_data.length)
    (h : DerivedFresh P t S) :
    t.ocol.dense_data = P.ocol.dense_data ∧
    t.prototype_id.length = t.ocol.instance_len ∧
    Overlay.Reachable t.ocol ∧
    (∀ i pid, t.prototype_id.get? i = some pid → pid < P.ocol.dense_data.length) ∧
    (∀ i, i ∉ S →
      bitGet t.ocol.presence i = false ∧ alookup t.ocol.sparse_data i = none) := by
  induction h with
  | base =>
    refine ⟨rfl, rfl, Overlay.Reachable.seed _ _ Overlay.Reachable.dflt, ?_, ?_⟩
    · intro i pid hpid
      simp [new_from_prototypes, default] at hpid
    · intro i _
      exact ⟨bitGet_nil i, rfl⟩
  | spawn t t' S kidx _ hok ih =>
    obtain ⟨hdense, hlen, hreach, hpid, hfresh⟩ := ih
    obtain ⟨pid, dv, hp1, hp2, he1, he2, he3⟩ := spawn_ok_spec hok
    obtain ⟨hsd, hss, hsl, hsb⟩ := Overlay.push_instance_spec t.ocol
    have hInv := Overlay.reachable_inv hreach
    refine ⟨?_, ?_, ?_, ?_, ?_⟩
    · rw [he3, hsd, hdense]
    · rw [he1, he3, hsl]
      simp only [List.length_append, List.length_cons, List.length_nil]
      rw [hlen]
    · rw [he3]; exact Overlay.Reachable.slot _ hreach
    · intro i q hq
      rw [he1] at hq
      rcases Nat.lt_or_ge i t.prototype_id.length with hi | hi
      · rw [List.get?_eq_getElem?, List.getElem?_append_left hi,
          ← List.get?_eq_getElem?] at hq
        exact hpid i q hq
      · rw [List.get?_eq_getElem?, List.getElem?_append_right hi] at hq
        rcases Nat.eq_or_lt_of_le hi with he | he
        · rw [← he, Nat.sub_self] at hq
          simp at hq
          subst hq
          exact hPwf kidx _ hp1
        · have hge : 1 ≤ i - t.prototype_id.length := by omega
          rw [List.getElem?_eq_none (by simpa using hge)] at hq
          cases hq
    · intro i hiS
      obtain ⟨hb, hlk⟩ := hfresh i hiS
      rw [he3, hss]
      exact ⟨(hsb i).trans hb, hlk⟩
  | write t S j p o' _ hok ih =>
    obtain ⟨hdense, hlen, hreach, hpid, hfresh⟩ := ih
    obtain ⟨hlt, hd, hl, hcase⟩ := Overlay.get_mut_ok_spec hok
    refine ⟨by rw [show ({t with ocol := o'} : Table A B).ocol = o' from rfl, hd, hdense],
      by rw [hl]; exact hlen, Overlay.Reachable.write _ _ j p hreach hok, hpid, ?_⟩
    intro i hiS
    have hij : i ≠ j := fun hh => hiS (hh ▸ List.mem_cons_self j S)
    have hiS' : i ∉ S := fun hh => hiS (List.mem_cons_of_mem j hh)
    obtain ⟨hb, hlk⟩ := hfresh i hiS'
    rcases hcase with ⟨_, heq, _⟩ | ⟨_, base, _, hs, _, hbj⟩
    · rw [heq]; exact ⟨hb, hlk⟩
    · refine ⟨(hbj i hij).trans hb, ?_⟩
      rw [hs, alookup_ainsert_ne _ _ _ _ (fun hh => hij hh.symm)]
      exact hlk
  | handle t S j v _ hov ih =>
    obtain ⟨hdense, hlen, hreach, hpid, hfresh⟩ := ih
    refine ⟨hdense, hlen, Overlay.Reachable.handle _ j v hreach hov, hpid, ?_⟩
    intro i hiS
    have hij : i ≠ j := fun hh => hiS (hh ▸ List.mem_cons_self j S)
    have hiS' : i ∉ S := fun hh => hiS (List.mem_cons_of_mem j hh)
    obtain ⟨hb, hlk⟩ := hfresh i hiS'
    refine ⟨hb, ?_⟩
    show alookup (ainsert t.ocol.sparse_data j v) i = none
    rw [alookup_ainsert_ne _ _ _ _ (fun hh => hij hh.symm)]
    exact hlk
  | assign t S j v o' _ hok ih =>
    obtain ⟨hdense, hlen, hreach, hpid, hfresh⟩ := ih
    obtain ⟨hlt, hd, hl, hs, _, hbj⟩ := Overlay.set_ok_spec hok
    refine ⟨by rw [show ({t with ocol := o'} : Table A B).ocol = o' from rfl, hd, hdense],
      by rw [hl]; exact hlen, Overlay.Reachable.assign _ _ j v hreach hok, hpid, ?_⟩
    intro i hiS
    have hij : i ≠ j := fun hh => hiS (hh ▸ List.mem_cons_self j S)
    have hiS' : i ∉ S := fun hh => hiS (List.mem_cons_of_mem j hh)
    obtain ⟨hb, hlk⟩ := hfresh i hiS'
    refine ⟨(hbj i hij).trans hb, ?_⟩
    rw [hs, alookup_ainsert_ne _ _ _ _ (fun hh => hij hh.symm)]
    exact hlk

theorem swap_remove_table_ok_spec {t t' : Table A B} {k : Nat}
    (h : swap_remove t k = .ok t') :
    k < t.prototype_id.length ∧ k < t.dcol.length ∧
    t'.prototype_id = list_swap_remove t.prototype_id k ∧
    t'.dcol = list_swap_remove t.dcol k ∧
    t.ocol.swap_remove_instance k = .ok t'.ocol := by
  simp only [swap_remove] at h
  split at h <;> rename_i h1
  · split at h <;> rename_i h2
    · split at h <;> rename_i o ho
      · simp at h
      · simp only [Except.ok.injEq] at h
        subst h
        exact ⟨h1, h2, rfl, rfl, ho⟩
    · simp at h
  · simp at h

end Table

/-! ### Claim theorems -/

/-- C1: for every overlay column reachable by any sequence of seed
(`init_from_prototypes`), ingest (`push_json`), `push_instance`, write
(`get_mut` and mutation through its handle), assign (`set`),
`clear_override` and `swap_remove_instance`, and every instance id
`i < instance_len`, presence bit `i` is set iff `sparse_data` contains a
value for key `i`. -/
theorem claim1_overlay_consistency {T : Type} {o : Overlay T}
    (h : Overlay.Reachable o) {i : Nat} (hi : i < o.instance_len) :
    bitGet o.presence i = true ↔ (alookup o.sparse_data i).isSome = true := by
  have hInv := Overlay.reachable_inv h
  exact ⟨fun hb => (hInv.1 i hb).2, fun hs => (hInv.2 i hs).2⟩

theorem claim1_witness :
    0 < (Overlay.push_instance (Overlay.default (T := Nat))).instance_len ∧
    (bitGet (Overlay.push_instance (Overlay.default (T := Nat))).presence 0 = true ↔
      (alookup (Overlay.push_instance (Overlay.default (T := Nat))).sparse_data 0).isSome
        = true) :=
  ⟨by decide,
   claim1_overlay_consistency
     (Overlay.Reachable.slot _ Overlay.Reachable.dflt) (by decide)⟩

/-- C10: in every reachable overlay state there is no stale override state
above the live range: every presence bit at position `≥ instance_len` is 0
and every key of the override mapping is `< instance_len`. -/
theorem claim10_no_stale_state {T : Type} {o : Overlay T}
    (h : Overlay.Reachable o) :
    (∀ i, o.instance_len ≤ i → bitGet o.presence i = false) ∧
    (∀ i, (alookup o.sparse_data i).isSome = true → i < o.instance_len) := by
  have hInv := Overlay.reachable_inv h
  refine ⟨fun i hle => ?_, fun i hs => (hInv.2 i hs).1⟩
  cases hb : bitGet o.presence i
  · rfl
  · exact absurd (hInv.1 i hb).1 (Nat.not_lt.mpr hle)

theorem claim10_witness :
    (∀ i, (Overlay.push_instance (Overlay.default (T := Nat))).instance_len ≤ i →
      bitGet (Overlay.push_instance (Overlay.default (T := Nat))).presence i = false) ∧
    (∀ i, (alookup (Overlay.push_instance (Overlay.default (T := Nat))).sparse_data i).isSome
        = true →
      i < (Overlay.push_instance (Overlay.default (T := Nat))).instance_len) :=
  claim10_no_stale_state (Overlay.Reachable.slot _ Overlay.Reachable.dflt)

/-- C9: on every reachable overlay, `push_instance` increments the instance
count by exactly one, leaves the new slot un-overridden, and copies no data:
the template sequence and the override mapping are unchanged. -/
theorem claim9_push_instance {T : Type} {o : Overlay T}
    (h : Overlay.Reachable o) :
    o.push_instance.instance_len = o.instance_len + 1 ∧
    o.push_instance.has_override o.instance_len = false ∧
    o.push_instance.dense_data = o.dense_data ∧
    o.push_instance.sparse_data = o.sparse_data := by
  obtain ⟨hd, hs, hl, hb⟩ := Overlay.push_instance_spec o
  have hInv := Overlay.reachable_inv h
  have hbit : bitGet o.presence o.instance_len = false := by
    cases hbit : bitGet o.presence o.instance_len
    · rfl
    · exact absurd (hInv.1 _ hbit).1 (Nat.lt_irrefl _)
  refine ⟨hl, ?_, hd, hs⟩
  rw [Overlay.has_override_eq, hb _, hbit, Bool.and_false]

theorem claim9_witness :
    (Overlay.default (T := Nat)).push_instance.instance_len =
      (Overlay.default (T := Nat)).instance_len + 1 ∧
    (Overlay.default (T := Nat)).push_instance.has_override
      (Overlay.default (T := Nat)).instance_len = false ∧
    (Overlay.default (T := Nat)).push_instance.dense_data =
      (Overlay.default (T := Nat)).dense_data ∧
    (Overlay.default (T := Nat)).push_instance.sparse_data =
      (Overlay.default (T := Nat)).sparse_data :=
  claim9_push_instance Overlay.Reachable.dflt

/-- C5 counterexample: `get` with `instance_id ≥ instance_len` does NOT
fail when `prototype_id` is in template range — `has_override` treats the
out-of-range instance as un-overridden and `get` falls through to the
template, returning a value.  The overlay below is produced by a single
`push_json` on `Overlay::default()` (one template, zero instances), and
`get 3 0` returns the template value even though `3 ≥ instance_len = 0`. -/
theorem claim5_counterexample :
    (Overlay.push_json (fun v : Nat => some v) 0 Overlay.default 5).instance_len ≤ 3 ∧
    Overlay.get (Overlay.push_json (fun v : Nat => some v) 0 Overlay.default 5) 3 0 =
      some 5 := by
  constructor
  · decide
  · rfl

/-- C5 (amended): `get` fails with a bounds error exactly when it takes the
template fallback with `prototype_id` out of template range; an
`instance_id ≥ instance_len` alone does not fail — such an id is treated as
un-overridden and the read falls back to the template at `prototype_id`. -/
theorem claim5_amended {T : Type} (o : Overlay T) (i p : Nat) :
    (o.has_override i = false → o.dense_data.length ≤ p → Overlay.get o i p = none) ∧
    (o.instance_len ≤ i → Overlay.get o i p = o.dense_data.get? p) := by
  constructor
  · intro hov hp
    unfold Overlay.get
    rw [hov]
    simp only [Bool.false_eq_true, if_false]
    rw [List.get?_eq_getElem?, List.getElem?_eq_none hp]
  · intro hle
    have hov : o.has_override i = false := by
      unfold Overlay.has_override
      rw [if_pos hle]
    unfold Overlay.get
    rw [hov]
    simp only [Bool.false_eq_true, if_false]

theorem claim5_amended_witness :
    Overlay.get (Overlay.default (T := Nat)) 0 2 = none ∧
    Overlay.get (Overlay.default (T := Nat)) 0 2 =
      (Overlay.default (T := Nat)).dense_data.get? 2 :=
  ⟨(claim5_amended Overlay.default 0 2).1 rfl (by decide),
   (claim5_amended Overlay.default 0 2).2 (by decide)⟩

/-- C6: starting from the empty (default) table, after `N` calls to
`load_prototype` the `prototype_id` column equals `[0, 1, …, N-1]`, for
every sequence of decoded input records — including records carrying an
id-like value (`DecodedRec.idval`), which `load_prototype` never reads. -/
theorem claim6_prototype_ids {A B V W : Type}
    (decA : V → Option A) (dfltA : A) (vnullA : V)
    (decB : W → Option B) (dfltB : B) (vnullB : W)
    (rs : List (Table.DecodedRec V W)) :
    (Table.load_all decA dfltA vnullA decB dfltB vnullB Table.default rs).prototype_id =
      List.range rs.length := by
  rw [Table.load_all_prototype_id, List.range_eq_range']
  rfl

/-- C7: for a registered field of either storage kind, if the decoded record
lacks the field, or the field's raw value fails to decode, the stored value
is the field's type default — and the record is still loaded: every column
(including the overlay's template sequence) grows by exactly one entry.
The hypotheses `decA vnullA = none` / `decB vnullB = none` state that the
registered field types do not decode from JSON `null` (true of every type
registered in this repository). -/
theorem claim7_default_fallback {A B V W : Type}
    (decA : V → Option A) (dfltA : A) (vnullA : V)
    (decB : W → Option B) (dfltB : B) (vnullB : W)
    (t : Table A B) (r : Table.DecodedRec V W)
    (hnullA : decA vnullA = none) (hnullB : decB vnullB = none) :
    ((Table.load_prototype decA dfltA vnullA decB dfltB vnullB t r).prototype_id.length =
        t.prototype_id.length + 1 ∧
      (Table.load_prototype decA dfltA vnullA decB dfltB vnullB t r).dcol.length =
        t.dcol.length + 1 ∧
      (Table.load_prototype decA dfltA vnullA decB dfltB vnullB t r).ocol.dense_data.length =
        t.ocol.dense_data.length + 1) ∧
    (r.dval = none →
      (Table.load_prototype decA dfltA vnullA decB dfltB vnullB t r).dcol =
        t.dcol ++ [dfltA]) ∧
    (r.oval = none →
      (Table.load_prototype decA dfltA vnullA decB dfltB vnullB t r).ocol.dense_data =
        t.ocol.dense_data ++ [dfltB]) ∧
    (∀ v, r.dval = some v → decA v = none →
      (Table.load_prototype decA dfltA vnullA decB dfltB vnullB t r).dcol =
        t.dcol ++ [dfltA]) ∧
    (∀ w, r.oval = some w → decB w = none →
      (Table.load_prototype decA dfltA vnullA decB dfltB vnullB t r).ocol.dense_data =
        t.ocol.dense_data ++ [dfltB]) := by
  obtain ⟨f1, f2, f3, _, _, _⟩ :=
    Table.load_prototype_fields decA dfltA vnullA decB dfltB vnullB t r
  refine ⟨⟨by rw [f1]; simp, by rw [f2]; simp, by rw [f3]; simp⟩, ?_, ?_, ?_, ?_⟩
  · intro hd
    rw [f2, hd]
    simp [push_json_vec, hnullA]
  · intro ho
    rw [f3, ho]
    simp [Overlay.push_json, hnullB]
  · intro v hd hdec
    rw [f2, hd]
    simp [push_json_vec, hdec]
  · intro w ho hdec
    rw [f3, ho]
    simp [Overlay.push_json, hdec]

theorem claim7_witness :
    (((fun v : Nat => if v = 0 then none else some v) 0 = none) ∧
     ((fun w : Nat => if w = 0 then none else some w) 0 = none)) ∧
    (((Table.load_prototype (fun v : Nat => if v = 0 then none else some v) 7 0
          (fun w : Nat => if w = 0 then none else some w) 8 0
          (Table.default (A := Nat) (B := Nat))
          ⟨none, some 0, some 99⟩).prototype_id.length =
        (Table.default (A := Nat) (B := Nat)).prototype_id.length + 1 ∧
      (Table.load_prototype (fun v : Nat => if v = 0 then none else some v) 7 0
          (fun w : Nat => if w = 0 then none else some w) 8 0
          (Table.default (A := Nat) (B := Nat))
          ⟨none, some 0, some 99⟩).dcol.length =
        (Table.default (A := Nat) (B := Nat)).dcol.length + 1 ∧
      (Table.load_prototype (fun v : Nat => if v = 0 then none else some v) 7 0
          (fun w : Nat => if w = 0 then none else some w) 8 0
          (Table.default (A := Nat) (B := Nat))
          ⟨none, some 0, some 99⟩).ocol.dense_data.length =
        (Table.default (A := Nat) (B := Nat)).ocol.dense_data.length + 1) ∧
     ((⟨none, some 0, some 99⟩ : Table.DecodedRec Nat Nat).dval = none →
      (Table.load_prototype (fun v : Nat => if v = 0 then none else some v) 7 0
          (fun w : Nat => if w = 0 then none else some w) 8 0
          (Table.default (A := Nat) (B := Nat))
          ⟨none, some 0, some 99⟩).dcol =
        (Table.default (A := Nat) (B := Nat)).dcol ++ [7]) ∧
     ((⟨none, some 0, some 99⟩ : Table.DecodedRec Nat Nat).oval = none →
      (Table.load_prototype (fun v : Nat => if v = 0 then none else some v) 7 0
          (fun w : Nat => if w = 0 then none else some w) 8 0
          (Table.default (A := Nat) (B := Nat))
          ⟨none, some 0, some 99⟩).ocol.dense_data =
        (Table.default (A := Nat) (B := Nat)).ocol.dense_data ++ [8]) ∧
     (∀ v, (⟨none, some 0, some 99⟩ : Table.DecodedRec Nat Nat).dval = some v →
      (fun v : Nat => if v = 0 then none else some v) v = none →
      (Table.load_prototype (fun v : Nat => if v = 0 then none else some v) 7 0
          (fun w : Nat => if w = 0 then none else some w) 8 0
          (Table.default (A := Nat) (B := Nat))
          ⟨none, some 0, some 99⟩).dcol =
        (Table.default (A := Nat) (B := Nat)).dcol ++ [7]) ∧
     (∀ w, (⟨none, some 0, some 99⟩ : Table.DecodedRec Nat Nat).oval = some w →
      (fun w : Nat => if w = 0 then none else some w) w = none →
      (Table.load_prototype (fun v : Nat => if v = 0 then none else some v) 7 0
          (fun w : Nat => if w = 0 then none else some w) 8 0
          (Table.default (A := Nat) (B := Nat))
          ⟨none, some 0, some 99⟩).ocol.dense_data =
        (Table.default (A := Nat) (B := Nat)).ocol.dense_data ++ [8])) :=
  ⟨⟨by decide, by decide⟩,
   claim7_default_fallback (fun v : Nat => if v = 0 then none else some v) 7 0
     (fun w : Nat => if w = 0 then none else some w) 8 0
     (Table.default (A := Nat) (B := Nat)) ⟨none, some 0, some 99⟩
     (by decide) (by decide)⟩

/-- C8: `get_mut`, `set`, `spawn_entity` and table-level `swap_remove` with
an out-of-range index each signal a bounds fault whose carried state is the
original, unmodified structure — no partial mutation across columns. -/
theorem claim8_bounds_no_mutation {T A B : Type}
    (o : Overlay T) (i p : Nat) (v : T)
    (t prototypes : Table A B) (kidx kd : Nat)
    (hio : o.instance_len ≤ i)
    (hsp : prototypes.prototype_id.length ≤ kidx)
    (hkd : t.prototype_id.length ≤ kd) :
    o.get_mut i p = .error o ∧
    o.set i v = .error o ∧
    Table.spawn_entity t prototypes kidx = .error t ∧
    Table.swap_remove t kd = .error t := by
  refine ⟨Overlay.get_mut_oob o i p hio, Overlay.set_error o i v hio, ?_, ?_⟩
  · unfold Table.spawn_entity
    rw [List.get?_eq_getElem?, List.getElem?_eq_none hsp]
  · unfold Table.swap_remove
    rw [if_neg (Nat.not_lt.mpr hkd)]

theorem claim8_witness :
    (Overlay.default (T := Nat)).instance_len ≤ 5 ∧
    (Table.default (A := Nat) (B := Nat)).prototype_id.length ≤ 4 ∧
    ((Overlay.default (T := Nat)).get_mut 5 0 = .error Overlay.default ∧
     (Overlay.default (T := Nat)).set 5 3 = .error Overlay.default ∧
     Table.spawn_entity (Table.default (A := Nat) (B := Nat)) Table.default 4 =
       .error Table.default ∧
     Table.swap_remove (Table.default (A := Nat) (B := Nat)) 4 =
       .error Table.default) :=
  ⟨by decide, by decide,
   claim8_bounds_no_mutation Overlay.default 5 0 3 Table.default Table.default 4 4
     (by decide) (by decide) (by decide)⟩

/-- C2: a successful `swap_remove_instance k` leaves the template sequence
unchanged, decrements the instance count by one, clears the last slot's
presence bit, and, when `k` was not the last slot, moves the last slot's
override state to `k` (value and bit when it had an override, clear bit
otherwise).  Correspondingly a successful table-level `swap_remove k` on an
aligned table decrements every column's length by one and moves the record
previously at the last position to `k` in every column. -/
theorem claim2_swap_remove_moves_override {T A B : Type} {o o' : Overlay T} {k : Nat}
    (hov : o.swap_remove_instance k = .ok o')
    {t t' : Table A B} {kd : Nat}
    (hal1 : t.prototype_id.length = t.dcol.length)
    (hal2 : t.prototype_id.length = t.ocol.instance_len)
    (hdesp : Table.swap_remove t kd = .ok t') :
    (o'.dense_data = o.dense_data ∧
     o'.instance_len = o.instance_len - 1 ∧
     bitGet o'.presence (o.instance_len - 1) = false ∧
     (k ≠ o.instance_len - 1 →
       (o.has_override (o.instance_len - 1) = true →
         bitGet o'.presence k = true ∧
         alookup o'.sparse_data k = alookup o.sparse_data (o.instance_len - 1)) ∧
       (o.has_override (o.instance_len - 1) = false →
         bitGet o'.presence k = false))) ∧
    (t'.prototype_id.length = t.prototype_id.length - 1 ∧
     t'.dcol.length = t.dcol.length - 1 ∧
     t'.ocol.instance_len = t.ocol.instance_len - 1 ∧
     (kd ≠ t.prototype_id.length - 1 →
       t'.prototype_id.get? kd = t.prototype_id.get? (t.prototype_id.length - 1) ∧
       t'.dcol.get? kd = t.dcol.get? (t.dcol.length - 1))) := by
  obtain ⟨hlt, hd, hl, hblast, hother, hkeq, hkne⟩ := Overlay.swap_remove_ok_spec hov
  obtain ⟨h1, h2, hp, hdc, hoo⟩ := Table.swap_remove_table_ok_spec hdesp
  obtain ⟨hlt2, _, hl2, _, _, _, _⟩ := Overlay.swap_remove_ok_spec hoo
  refine ⟨⟨hd, hl, hblast, fun hne => ⟨fun htrue => ?_, fun hfalse => ((hkne hne).2 hfalse).1⟩⟩,
    ?_, ?_, hl2, fun hkd => ⟨?_, ?_⟩⟩
  · obtain ⟨hb, hv, _, _⟩ := (hkne hne).1 htrue
    exact ⟨hb, hv⟩
  · rw [hp, list_swap_remove_length _ _ h1]
  · rw [hdc, list_swap_remove_length _ _ h2]
  · rw [hp]
    exact list_swap_remove_get_k _ _ (by omega)
  · rw [hdc]
    exact list_swap_remove_get_k _ _ (by omega)

theorem claim2_witness :
    Overlay.swap_remove_instance (⟨[], [(1, 42)], [2], 2⟩ : Overlay Nat) 0 =
      .ok (⟨[], [(0, 42)], [1], 1⟩ : Overlay Nat) ∧
    Table.swap_remove
      ({ prototype_id := [0, 0], dcol := [10, 20],
         ocol := ⟨[5], [(1, 42)], [2], 2⟩ } : Table Nat Nat) 0 =
      .ok { prototype_id := [0], dcol := [20], ocol := ⟨[5], [(0, 42)], [1], 1⟩ } ∧
    (((⟨[], [(0, 42)], [1], 1⟩ : Overlay Nat).dense_data =
        (⟨[], [(1, 42)], [2], 2⟩ : Overlay Nat).dense_data ∧
      (⟨[], [(0, 42)], [1], 1⟩ : Overlay Nat).instance_len =
        (⟨[], [(1, 42)], [2], 2⟩ : Overlay Nat).instance_len - 1 ∧
      bitGet (⟨[], [(0, 42)], [1], 1⟩ : Overlay Nat).presence
        ((⟨[], [(1, 42)], [2], 2⟩ : Overlay Nat).instance_len - 1) = false ∧
      (0 ≠ (⟨[], [(1, 42)], [2], 2⟩ : Overlay Nat).instance_len - 1 →
        ((⟨[], [(1, 42)], [2], 2⟩ : Overlay Nat).has_override
            ((⟨[], [(1, 42)], [2], 2⟩ : Overlay Nat).instance_len - 1) = true →
          bitGet (⟨[], [(0, 42)], [1], 1⟩ : Overlay Nat).presence 0 = true ∧
          alookup (⟨[], [(0, 42)], [1], 1⟩ : Overlay Nat).sparse_data 0 =
            alookup (⟨[], [(1, 42)], [2], 2⟩ : Overlay Nat).sparse_data
              ((⟨[], [(1, 42)], [2], 2⟩ : Overlay Nat).instance_len - 1)) ∧
        ((⟨[], [(1, 42)], [2], 2⟩ : Overlay Nat).has_override
            ((⟨[], [(1, 42)], [2], 2⟩ : Overlay Nat).instance_len - 1) = false →
          bitGet (⟨[], [(0, 42)], [1], 1⟩ : Overlay Nat).presence 0 = false))) ∧
     (({ prototype_id := [0], dcol := [20],
         ocol := ⟨[5], [(0, 42)], [1], 1⟩ } : Table Nat Nat).prototype_id.length =
        ({ prototype_id := [0, 0], dcol := [10, 20],
           ocol := ⟨[5], [(1, 42)], [2], 2⟩ } : Table Nat Nat).prototype_id.length - 1 ∧
      ({ prototype_id := [0], dcol := [20],
         ocol := ⟨[5], [(0, 42)], [1], 1⟩ } : Table Nat Nat).dcol.length =
        ({ prototype_id := [0, 0], dcol := [10, 20],
           ocol := ⟨[5], [(1, 42)], [2], 2⟩ } : Table Nat Nat).dcol.length - 1 ∧
      ({ prototype_id := [0], dcol := [20],
         ocol := ⟨[5], [(0, 42)], [1], 1⟩ } : Table Nat Nat).ocol.instance_len =
        ({ prototype_id := [0, 0], dcol := [10, 20],
           ocol := ⟨[5], [(1, 42)], [2], 2⟩ } : Table Nat Nat).ocol.instance_len - 1 ∧
      (0 ≠ ({ prototype_id := [0, 0], dcol := [10, 20],
              ocol := ⟨[5], [(1, 42)], [2], 2⟩ } : Table Nat Nat).prototype_id.length - 1 →
        ({ prototype_id := [0], dcol := [20],
           ocol := ⟨[5], [(0, 42)], [1], 1⟩ } : Table Nat Nat).prototype_id.get? 0 =
          ({ prototype_id := [0, 0], dcol := [10, 20],
             ocol := ⟨[5], [(1, 42)], [2], 2⟩ } : Table Nat Nat).prototype_id.get?
            (({ prototype_id := [0, 0], dcol := [10, 20],
                ocol := ⟨[5], [(1, 42)], [2], 2⟩ } : Table Nat Nat).prototype_id.length - 1) ∧
        ({ prototype_id := [0], dcol := [20],
           ocol := ⟨[5], [(0, 42)], [1], 1⟩ } : Table Nat Nat).dcol.get? 0 =
          ({ prototype_id := [0, 0], dcol := [10, 20],
             ocol := ⟨[5], [(1, 42)], [2], 2⟩ } : Table Nat Nat).dcol.get?
            (({ prototype_id := [0, 0], dcol := [10, 20],
                ocol := ⟨[5], [(1, 42)], [2], 2⟩ } : Table Nat Nat).dcol.length - 1)))) :=
  ⟨rfl, rfl,
   @claim2_swap_remove_moves_override Nat Nat Nat
     ⟨[], [(1, 42)], [2], 2⟩ ⟨[], [(0, 42)], [1], 1⟩ 0 rfl
     { prototype_id := [0, 0], dcol := [10, 20], ocol := ⟨[5], [(1, 42)], [2], 2⟩ }
     { prototype_id := [0], dcol := [20], ocol := ⟨[5], [(0, 42)], [1], 1⟩ }
     0 rfl rfl rfl⟩

/-- C3: copy-on-write isolation.  With `i ≠ j` both un-overridden, after a
successful `get_mut i p` and any mutation through the returned handle
(`handle_write` with an arbitrary value `v`), reading `j` with the same
prototype id `p` still returns the original template value, the template
sequence is unchanged, and only the override entry for `i` differs. -/
theorem claim3_cow_isolation {T : Type} {o o1 : Overlay T} {i j p : Nat} (v : T)
    (hij : i ≠ j)
    (hoi : o.has_override i = false)
    (hoj : o.has_override j = false)
    (hw : o.get_mut i p = .ok o1) :
    Overlay.get (Overlay.handle_write o1 i v) j p = o.dense_data.get? p ∧
    Overlay.get (Overlay.handle_write o1 i v) j p = Overlay.get o j p ∧
    (o.dense_data.get? p).isSome = true ∧
    (Overlay.handle_write o1 i v).dense_data = o.dense_data ∧
    (∀ m, m ≠ i →
      alookup (Overlay.handle_write o1 i v).sparse_data m = alookup o.sparse_data m) := by
  obtain ⟨hlt, hd, hl, hcase⟩ := Overlay.get_mut_ok_spec hw
  rcases hcase with ⟨hovT, _, _⟩ | ⟨_, base, hbase, hs, hbi, hbj⟩
  · rw [hovT] at hoi; cases hoi
  · have hw_dense : (Overlay.handle_write o1 i v).dense_data = o.dense_data := by
      show o1.dense_data = o.dense_data
      exact hd
    have hw_len : (Overlay.handle_write o1 i v).instance_len = o.instance_len := by
      show o1.instance_len = o.instance_len
      exact hl
    have hw_bit : ∀ m, m ≠ i →
        bitGet (Overlay.handle_write o1 i v).presence m = bitGet o.presence m := by
      intro m hm
      show bitGet o1.presence m = bitGet o.presence m
      exact hbj m hm
    have hov2 : (Overlay.handle_write o1 i v).has_override j = false := by
      rw [Overlay.has_override_eq, hw_len, hw_bit j (Ne.symm hij)]
      rw [Overlay.has_override_eq] at hoj
      exact hoj
    have hget2 : Overlay.get (Overlay.handle_write o1 i v) j p = o.dense_data.get? p := by
      unfold Overlay.get
      rw [hov2]
      simp only [Bool.false_eq_true, if_false]
      rw [hw_dense]
    have hget0 : Overlay.get o j p = o.dense_data.get? p := by
      unfold Overlay.get
      rw [hoj]
      simp only [Bool.false_eq_true, if_false]
    refine ⟨hget2, by rw [hget2, hget0], by rw [hbase]; rfl, hw_dense, ?_⟩
    intro m hm
    show alookup (ainsert o1.sparse_data i v) m = alookup o.sparse_data m
    rw [alookup_ainsert_ne _ _ _ _ (fun hh => hm hh.symm), hs,
      alookup_ainsert_ne _ _ _ _ (fun hh => hm hh.symm)]

theorem claim3_witness :
    (0 : Nat) ≠ 1 ∧
    (⟨[5], [], [0], 2⟩ : Overlay Nat).has_override 0 = false ∧
    (⟨[5], [], [0], 2⟩ : Overlay Nat).has_override 1 = false ∧
    Overlay.get_mut (⟨[5], [], [0], 2⟩ : Overlay Nat) 0 0 =
      .ok (⟨[5], [(0, 5)], [1], 2⟩ : Overlay Nat) ∧
    (Overlay.get (Overlay.handle_write (⟨[5], [(0, 5)], [1], 2⟩ : Overlay Nat) 0 9) 1 0 =
        (⟨[5], [], [0], 2⟩ : Overlay Nat).dense_data.get? 0 ∧
      Overlay.get (Overlay.handle_write (⟨[5], [(0, 5)], [1], 2⟩ : Overlay Nat) 0 9) 1 0 =
        Overlay.get (⟨[5], [], [0], 2⟩ : Overlay Nat) 1 0 ∧
      ((⟨[5], [], [0], 2⟩ : Overlay Nat).dense_data.get? 0).isSome = true ∧
      (Overlay.handle_write (⟨[5], [(0, 5)], [1], 2⟩ : Overlay Nat) 0 9).dense_data =
        (⟨[5], [], [0], 2⟩ : Overlay Nat).dense_data ∧
      (∀ m, m ≠ 0 →
        alookup (Overlay.handle_write (⟨[5], [(0, 5)], [1], 2⟩ : Overlay Nat) 0 9).sparse_data m =
          alookup (⟨[5], [], [0], 2⟩ : Overlay Nat).sparse_data m)) :=
  ⟨by decide, rfl, rfl, rfl,
   @claim3_cow_isolation Nat ⟨[5], [], [0], 2⟩ ⟨[5], [(0, 5)], [1], 2⟩ 0 1 0 9
     (by decide) rfl rfl rfl⟩

/-- C4: for an instance table freshly derived (`new_from_prototypes`) from a
prototype table built by `load_prototype` calls from the empty table, and
evolved by spawns, writes and assigns, every spawned instance `i` that was
never written or assigned reads — via `get` with its stored prototype id —
exactly the prototype table's template value at that id. -/
theorem claim4_fresh_read_through {A B V W : Type}
    (decA : V → Option A) (dfltA : A) (vnullA : V)
    (decB : W → Option B) (dfltB : B) (vnullB : W)
    {rs : List (Table.DecodedRec V W)} {t : Table A B} {S : List Nat}
    (hder : Table.DerivedFresh
      (Table.load_all decA dfltA vnullA decB dfltB vnullB Table.default rs) t S)
    {i : Nat} (hi : i < t.ocol.instance_len) (hiS : i ∉ S) :
    ∃ pid, t.prototype_id.get? i = some pid ∧
      Overlay.get t.ocol i pid =
        (Table.load_all decA dfltA vnullA decB dfltB vnullB
          Table.default rs).ocol.dense_data.get? pid ∧
      (Overlay.get t.ocol i pid).isSome = true := by
  have hPwf : ∀ m pid,
      (Table.load_all decA dfltA vnullA decB dfltB vnullB
        Table.default rs).prototype_id.get? m = some pid →
      pid < (Table.load_all decA dfltA vnullA decB dfltB vnullB
        Table.default rs).ocol.dense_data.length := by
    intro m pid hm
    obtain ⟨_, _, hdl⟩ :=
      Table.load_all_lengths decA dfltA vnullA decB dfltB vnullB rs Table.default
    rw [Table.load_all_prototype_id] at hm
    rw [hdl]
    rcases Nat.lt_or_ge m rs.length with hmr | hmr
    · rw [List.get?_eq_getElem?] at hm
      have : (Table.default (A := A) (B := B)).prototype_id ++
          List.range' (Table.default (A := A) (B := B)).prototype_id.length rs.length =
          List.range' 0 rs.length := rfl
      rw [this, List.getElem?_range' _ _ hmr] at hm
      simp at hm
      show pid < (Table.default (A := A) (B := B)).ocol.dense_data.length + rs.length
      omega
    · exfalso
      rw [List.get?_eq_getElem?] at hm
      have : (Table.default (A := A) (B := B)).prototype_id ++
          List.range' (Table.default (A := A) (B := B)).prototype_id.length rs.length =
          List.range' 0 rs.length := rfl
      rw [this, List.getElem?_eq_none (by simpa using hmr)] at hm
      cases hm
  obtain ⟨hdense, hlen, hreach, hpid, hfresh⟩ := Table.derived_facts hPwf hder
  have hi' : i < t.prototype_id.length := by rw [hlen]; exact hi
  obtain ⟨pid, hpid_eq⟩ : ∃ pid, t.prototype_id.get? i = some pid := by
    rw [List.get?_eq_getElem?, List.getElem?_eq_getElem hi']
    exact ⟨_, rfl⟩
  have hbound := hpid i pid hpid_eq
  obtain ⟨hb, _⟩ := hfresh i hiS
  have hov : t.ocol.has_override i = false := by
    rw [Overlay.has_override_eq, hb, Bool.and_false]
  have hget : Overlay.get t.ocol i pid = t.ocol.dense_data.get? pid := by
    unfold Overlay.get
    rw [hov]
    simp only [Bool.false_eq_true, if_false]
  refine ⟨pid, hpid_eq, ?_, ?_⟩
  · rw [hget, hdense]
  · rw [hget, hdense, List.get?_eq_getElem?,
      List.getElem?_eq_getElem hbound]
    rfl

theorem claim4_witness :
    (0 : Nat) <
      ((⟨[0], [5], ⟨[7], [], [0], 1⟩⟩ : Table Nat Nat)).ocol.instance_len ∧
    (0 : Nat) ∉ ([] : List Nat) ∧
    (∃ pid,
      ((⟨[0], [5], ⟨[7], [], [0], 1⟩⟩ : Table Nat Nat)).prototype_id.get? 0 = some pid ∧
      Overlay.get ((⟨[0], [5], ⟨[7], [], [0], 1⟩⟩ : Table Nat Nat)).ocol 0 pid =
        (Table.load_all (fun v : Nat => some v) 0 0 (fun w : Nat => some w) 0 0
          Table.default [⟨some 5, some 7, some 99⟩]).ocol.dense_data.get? pid ∧
      (Overlay.get ((⟨[0], [5], ⟨[7], [], [0], 1⟩⟩ : Table Nat Nat)).ocol 0 pid).isSome
        = true) :=
  ⟨by decide, by decide,
   claim4_fresh_read_through (fun v : Nat => some v) 0 0 (fun w : Nat => some w) 0 0
     ((Table.DerivedFresh.spawn _ ⟨[0], [5], ⟨[7], [], [0], 1⟩⟩ [] 0
        Table.DerivedFresh.base rfl :
       Table.DerivedFresh
         (Table.load_all (fun v : Nat => some v) 0 0 (fun w : Nat => some w) 0 0
           Table.default [⟨some 5, some 7, some 99⟩])
         ⟨[0], [5], ⟨[7], [], [0], 1⟩⟩ []))
     (by decide) (by decide)⟩

end GrugSoa
